import Mathlib

/-!
Verification of the CIDR-to-IP-range converter (src/ip_ranges).

The development shallowly embeds the conversion pipeline of converter.py,
utils.py and the convert-command validation of the package entry point.
Python strings are modelled as lists of characters so that every string
operation is a structurally recursive, kernel-evaluable function; machine
integers are Nat with explicit bounds.  The Python stdlib ipaddress module
(an external collaborator of the code under test) is modelled after the
CPython implementation: hostmask, netmask, network/broadcast address and
address count are computed with the same bitwise formulas CPython uses.
-/

namespace IPRanges

/-! ### Character-level string helpers (model of Python str operations) -/

/-- Whitespace characters stripped by Python str.strip (ASCII subset). -/
def isPySpace (c : Char) : Bool :=
  c = ' ' || c = '\t' || c = '\n' || c = '\r' || c = '\x0b' || c = '\x0c'

/-- Model of Python str.strip(): drop leading and trailing whitespace. -/
def trimChars (l : List Char) : List Char :=
  ((l.dropWhile isPySpace).reverse.dropWhile isPySpace).reverse

/-- Model of Python str.split(sep) for a one-character separator:
"".split(".") = [""], "a.b".split(".") = ["a","b"], ".".split(".") = ["",""]. -/
def splitOnChar (sep : Char) : List Char → List (List Char)
  | [] => [[]]
  | c :: cs =>
    let r := splitOnChar sep cs
    if c = sep then [] :: r
    else
      match r with
      | [] => [[c]]
      | h :: t => (c :: h) :: t

/-- Decimal value of a digit character. -/
def digitVal (c : Char) : Nat := c.toNat - 48

/-- Decimal value of a digit string, as computed by Python int(s, 10). -/
def decimalVal (l : List Char) : Nat :=
  l.foldl (fun acc c => acc * 10 + digitVal c) 0

/-! ### Model of CPython ipaddress (stdlib collaborator)

The repository calls ipaddress.ip_network(text, strict=False) and reads
network_address, broadcast_address and num_addresses.  The model below
follows the CPython implementation: the textual IPv4 dotted-quad/prefix
grammar is modelled in full; IPv6 networks (whose textual grammar is not
modelled) are represented directly at the integer layer as a PyNetwork with
bits = 128, which is the value the library produces for IPv6 text. -/

/-- CPython ipaddress._parse_octet: non-empty, ASCII digits only, at most
3 characters, no leading zero (unless the octet is exactly "0"), value
at most 255. -/
def parseOctet (l : List Char) : Option Nat :=
  if l.isEmpty then none
  else if ¬ l.all Char.isDigit then none
  else if 3 < l.length then none
  else if 1 < l.length ∧ l.head? = some '0' then none
  else if decimalVal l ≤ 255 then some (decimalVal l) else none

/-- CPython ipaddress._prefix_from_prefix_string: ASCII digits only,
value at most the family maximum prefix length. -/
def parsePrefixLen (maxLen : Nat) (l : List Char) : Option Nat :=
  if l.isEmpty then none
  else if ¬ l.all Char.isDigit then none
  else if decimalVal l ≤ maxLen then some (decimalVal l) else none

/-- CPython ipaddress._ip_int_from_string for IPv4: split on '.', exactly
four octets, big-endian byte composition. -/
def parseIPv4 (l : List Char) : Option Nat :=
  match splitOnChar '.' l with
  | [p1, p2, p3, p4] =>
    (parseOctet p1).bind fun a =>
    (parseOctet p2).bind fun b =>
    (parseOctet p3).bind fun c =>
    (parseOctet p4).map fun d => ((a * 256 + b) * 256 + c) * 256 + d
  | _ => none

/-- CPython ipaddress._ALL_ONES for an address family of the given width. -/
def ALL_ONES (bits : Nat) : Nat := 2 ^ bits - 1

/-- CPython hostmask: ALL_ONES shifted right by the prefix length. -/
def hostmaskInt (bits p : Nat) : Nat := ALL_ONES bits >>> p

/-- CPython netmask: ALL_ONES xor hostmask. -/
def netmaskInt (bits p : Nat) : Nat := ALL_ONES bits ^^^ hostmaskInt bits p

/-- A parsed network: address-family width in bits, integer value of the
canonical network address, prefix length. -/
structure PyNetwork where
  bits : Nat
  networkInt : Nat
  prefixLen : Nat
deriving DecidableEq

/-- CPython IPv4Network/IPv6Network construction with strict=False: the
network address is the given address AND the netmask (host bits cleared,
never rejected). -/
def mkNetwork (bits a p : Nat) : PyNetwork :=
  ⟨bits, a &&& netmaskInt bits p, p⟩

/-- CPython broadcast_address: network address OR hostmask. -/
def PyNetwork.broadcastInt (n : PyNetwork) : Nat :=
  n.networkInt ||| hostmaskInt n.bits n.prefixLen

/-- CPython num_addresses: broadcast - network + 1. -/
def PyNetwork.numAddresses (n : PyNetwork) : Nat :=
  n.broadcastInt - n.networkInt + 1

/-- Model of ipaddress.ip_network(text, strict=False) for IPv4 text:
an optional "/" separated prefix (default: the maximum prefix length);
more than one "/" is rejected. -/
def ip_network (l : List Char) : Option PyNetwork :=
  match splitOnChar '/' l with
  | [addr] => (parseIPv4 addr).map fun a => mkNetwork 32 a 32
  | [addr, pre] =>
    (parseIPv4 addr).bind fun a =>
    (parsePrefixLen 32 pre).map fun p => mkNetwork 32 a p
  | _ => none

/-! ### utils.py -/

/-- utils.validate_cidr: True exactly when ip_network accepts the stripped
text (every parse failure is caught and turned into False). -/
def validate_cidr (s : String) : Bool :=
  (ip_network (trimChars s.data)).isSome

/-! ### converter.py: CIDRConverter -/

/-- The dictionary produced by CIDRConverter.cidr_to_ip_range.  The
start_ip and end_ip fields, dotted strings in Python, are modelled by the
integer values of the addresses (str(IPv4Address(n)) is injective in n). -/
structure IpRange where
  cidr : List Char
  start_ip : Nat
  end_ip : Nat
  total_ips : Nat
deriving DecidableEq

/-- CIDRConverter.cidr_to_ip_range: validate, then build the range record
from the parsed network; None on invalid input. -/
def cidr_to_ip_range (s : String) : Option IpRange :=
  if validate_cidr s then
    match ip_network (trimChars s.data) with
    | some nw => some ⟨trimChars s.data, nw.networkInt, nw.broadcastInt, nw.numAddresses⟩
    | none => none
  else none

/-- CIDRConverter.process_zone_file: strip each line, skip blank lines and
comments, keep the ranges of the lines that validate, skip the rest. -/
def process_zone_file (lines : List String) : List IpRange :=
  lines.filterMap fun line =>
    if (trimChars line.data).isEmpty || (trimChars line.data).head? == some '#' then none
    else cidr_to_ip_range (String.mk (trimChars line.data))

/-- The sample size k = max(1, int(total_ips * sample_rate)) computed in
CIDRConverter.save_ranges_txt for the random-sampling branch.  The float
sample_rate is modelled as a rational; Python int() truncates toward
zero, so int(total * rate) is the truncating division of
total * rate.num by rate.den (the value of the product as a fraction). -/
def sampleSize (rate : ℚ) (total : Nat) : Nat :=
  max 1 (((total : Int) * rate.num).tdiv (rate.den : Int)).toNat

/-- The addresses written for one range by CIDRConverter.save_ranges_txt
(one address per line, as integer values).  The network is the result of
re-parsing the stored cidr text.  sample stands for the draw returned by
random.sample(range(total_ips), k); its guarantees (k distinct values
below total_ips) are hypotheses of the theorems, so every possible run is
covered.  In the random branch each chosen offset is converted with the
IPv4-only constructor ipaddress.IPv4Address, which raises ValueError on a
value of 2^32 or more; the per-range try/except stops the range's output
at the first such value (takeWhile), earlier lines having been written. -/
def txtRangeLines (rate : ℚ) (nw : PyNetwork) (sample : List Nat) : List Nat :=
  if 1 ≤ rate then (List.range nw.numAddresses).map (nw.networkInt + ·)
  else if 0 < rate then
    if nw.numAddresses ≤ sampleSize rate nw.numAddresses then
      (List.range nw.numAddresses).map (nw.networkInt + ·)
    else
      ((List.insertionSort (· ≤ ·) sample).map (nw.networkInt + ·)).takeWhile (· < 2 ^ 32)
  else []

/-- CIDRConverter.save_ranges_txt: the lines written for a file are the
concatenation of each range's lines, each range paired with its random
draw; a ValueError in one range does not stop the following ranges. -/
def save_ranges_txt (rate : ℚ) (ranges : List (PyNetwork × List Nat)) : List Nat :=
  (ranges.map fun p => txtRangeLines rate p.1 p.2).flatten

/-- Output-path selection shared by save_ranges_json / _csv / _txt: the
explicit output file name is used when it is set (truthy, i.e. non-empty)
and exactly one output format was requested; otherwise the per-format
default name base_name + "_ranges." + extension. -/
def chooseOutputFile (output_file_name : Option String) (output_formats : List String)
    (base_name ext : String) : String :=
  match output_file_name with
  | some n => if n ≠ "" ∧ output_formats.length = 1 then n else base_name ++ "_ranges." ++ ext
  | none => base_name ++ "_ranges." ++ ext

/-- Python truthiness of an optional string argument. -/
def pyTruthy : Option String → Bool
  | some s => s != ""
  | none => false

/-- The only pre-run validation of the explicit output file name, from the
convert branch of the package entry point: exit(1) exactly when
args.output_file and args.input are truthy and the input path is a
directory.  The requested formats do not enter this check. -/
def cliRejectsOutputFile (output_file input : Option String) (input_is_dir : Bool) : Bool :=
  pyTruthy output_file && (pyTruthy input && input_is_dir)

/-- The converter state set up by CIDRConverter.__init__ that the claims
inspect; sample_rate is clamped into [0,1] and max_workers raised to at
least 1.  Neither field is assigned anywhere else in the source, so every
later operation of a run reads these values unchanged. -/
structure Converter where
  sample_rate : ℚ
  max_workers : Int
deriving DecidableEq

/-- CIDRConverter.__init__ (the fields under verification). -/
def CIDRConverter_init (sample_rate : ℚ) (max_workers : Int) : Converter :=
  ⟨max 0 (min 1 sample_rate), max 1 max_workers⟩

/-! ### converter.py: convert_file and convert_all -/

/-- A source file: its name and its lines. -/
structure FsFile where
  name : String
  lines : List String
deriving DecidableEq

/-- The per-file statistics dictionary returned by convert_file on
success. -/
structure FileStats where
  ranges : Nat
  ips : Nat
deriving DecidableEq

/-- CIDRConverter.convert_file: None when the file yields no valid
ranges, otherwise the range count and the address-count sum.  The
format-specific save calls are pure output and modelled separately. -/
def convert_file (f : FsFile) : Option FileStats :=
  if (process_zone_file f.lines).isEmpty then none
  else some ⟨(process_zone_file f.lines).length,
             ((process_zone_file f.lines).map IpRange.total_ips).sum⟩

/-- The statistics dictionary returned by convert_all, with the error log
of the missing-input branch (logger.error) kept as a flag so that the
configuration-level signal is part of the result. -/
structure RunStats where
  total_files : Nat
  processed_files : Nat
  failed_files : Nat
  total_ranges : Nat
  total_ips : Nat
  configError : Bool
deriving DecidableEq

/-- The all-zero statistics of the two early returns of convert_all. -/
def zeroStats (err : Bool) : RunStats :=
  ⟨0, 0, 0, 0, 0, err⟩

/-- The state of the input path: an existing file, an existing directory
with its direct entries, or a path that exists as neither. -/
inductive InputPath
  | file (f : FsFile)
  | dir (entries : List FsFile)
  | missing

/-- input_path.glob("*.zone"): the direct entries of the directory whose
name ends in ".zone" (non-recursive). -/
def globZone (entries : List FsFile) : List FsFile :=
  entries.filter fun f => ".zone".data.isSuffixOf f.name.data

/-- Input discovery of convert_all: a single existing file is processed as
is, a directory contributes its *.zone entries, a missing path yields
none (the error branch). -/
def discoverFiles : InputPath → Option (List FsFile)
  | .file f => some [f]
  | .dir entries => some (globZone entries)
  | .missing => none

/-- One step of the aggregation loop of convert_all: a successful result
is counted into processed_files and the running sums, a None result
increments failed_files. -/
def aggStep (st : RunStats) (zf : FsFile) : RunStats :=
  match convert_file zf with
  | some stats =>
    { st with processed_files := st.processed_files + 1,
              total_ranges := st.total_ranges + stats.ranges,
              total_ips := st.total_ips + stats.ips }
  | none => { st with failed_files := st.failed_files + 1 }

/-- The aggregation of convert_all over the discovered files.  The thread
pool hands each completed future to this single accumulator; the sums are
order-independent, so the sequential fold models every completion order. -/
def aggregateStats (zone_files : List FsFile) : RunStats :=
  zone_files.foldl aggStep ⟨zone_files.length, 0, 0, 0, 0, false⟩

/-- CIDRConverter.convert_all: discovery, the two early returns (missing
path with an error signal, empty file set), then the aggregation loop. -/
def convert_all (input : InputPath) : RunStats :=
  match discoverFiles input with
  | none => zeroStats true
  | some zone_files =>
    if zone_files.isEmpty then zeroStats false
    else aggregateStats zone_files

/-! ## Arithmetic facts about the network model -/

/-- For a prefix length within the family width, the hostmask is the
all-ones value on the host bits. -/
theorem hostmaskInt_eq {bits p : Nat} (hp : p ≤ bits) :
    hostmaskInt bits p = 2 ^ (bits - p) - 1 := by
  apply Nat.eq_of_testBit_eq
  intro i
  simp only [hostmaskInt, ALL_ONES, Nat.testBit_shiftRight, Nat.testBit_two_pow_sub_one,
    decide_eq_decide]
  omega

/-- Netmask and hostmask have no common bits. -/
theorem netmask_and_hostmask (bits p : Nat) :
    netmaskInt bits p &&& hostmaskInt bits p = 0 := by
  apply Nat.eq_of_testBit_eq
  intro i
  simp only [netmaskInt, hostmaskInt, ALL_ONES, Nat.testBit_and, Nat.testBit_xor,
    Nat.testBit_shiftRight, Nat.testBit_two_pow_sub_one, Nat.zero_testBit]
  by_cases h1 : i < bits <;> by_cases h2 : p + i < bits <;> simp [h1, h2] <;> omega

/-- The network address has no bits in the hostmask. -/
theorem mkNetwork_and_hostmask (bits a p : Nat) :
    (mkNetwork bits a p).networkInt &&& hostmaskInt bits p = 0 := by
  show a &&& netmaskInt bits p &&& hostmaskInt bits p = 0
  rw [Nat.and_assoc, netmask_and_hostmask, Nat.and_zero]

/-- The network address is a multiple of the block size. -/
theorem networkInt_mod {bits p : Nat} (a : Nat) (hp : p ≤ bits) :
    (mkNetwork bits a p).networkInt % 2 ^ (bits - p) = 0 := by
  have h := mkNetwork_and_hostmask bits a p
  rwa [hostmaskInt_eq hp, Nat.and_pow_two_sub_one_eq_mod] at h

/-- The broadcast address is the network address plus the block size
minus one: the OR with the hostmask is an addition because the network
address has no host bits. -/
theorem broadcastInt_mkNetwork {bits p : Nat} (a : Nat) (hp : p ≤ bits) :
    (mkNetwork bits a p).broadcastInt =
      (mkNetwork bits a p).networkInt + (2 ^ (bits - p) - 1) := by
  obtain ⟨q, hq⟩ := Nat.dvd_of_mod_eq_zero (networkInt_mod a hp)
  show (mkNetwork bits a p).networkInt ||| hostmaskInt bits p = _
  rw [hostmaskInt_eq hp, hq]
  exact (Nat.mul_add_lt_is_or (Nat.sub_lt (Nat.two_pow_pos _) Nat.one_pos) q).symm

/-- The address count of a block with prefix length p in a family of the
given width is 2 ^ (bits - p). -/
theorem numAddresses_mkNetwork {bits p : Nat} (a : Nat) (hp : p ≤ bits) :
    (mkNetwork bits a p).numAddresses = 2 ^ (bits - p) := by
  have h := broadcastInt_mkNetwork a hp
  have hpos : 0 < 2 ^ (bits - p) := Nat.two_pow_pos _
  simp only [PyNetwork.numAddresses, h]
  omega

/-- Clearing the host bits with the netmask is exactly subtracting the
remainder modulo the block size: the canonical base address. -/
theorem networkInt_eq_clear {bits p : Nat} (a : Nat) (hp : p ≤ bits) (ha : a < 2 ^ bits) :
    (mkNetwork bits a p).networkInt = a - a % 2 ^ (bits - p) := by
  have hdm := Nat.div_add_mod a (2 ^ (bits - p))
  have h2 : a - a % 2 ^ (bits - p) = 2 ^ (bits - p) * (a / 2 ^ (bits - p)) := by omega
  rw [h2]
  show a &&& netmaskInt bits p = _
  apply Nat.eq_of_testBit_eq
  intro i
  rw [Nat.testBit_mul_pow_two, ← Nat.shiftRight_eq_div_pow, Nat.testBit_shiftRight]
  simp only [Nat.testBit_and, netmaskInt, hostmaskInt, ALL_ONES, Nat.testBit_xor,
    Nat.testBit_shiftRight, Nat.testBit_two_pow_sub_one]
  by_cases h1 : i < bits
  · by_cases h2 : bits - p ≤ i
    · have h3 : bits - p + (i - (bits - p)) = i := by omega
      have h4 : ¬ (p + i < bits) := by omega
      simp [h1, h2, h3, h4]
    · have h4 : p + i < bits := by omega
      simp [h1, h2, h4]
  · have hbit : a.testBit i = false :=
      Nat.testBit_lt_two_pow (lt_of_lt_of_le ha (Nat.pow_le_pow_right (by norm_num) (by omega)))
    have h4 : ¬ (p + i < bits) := by omega
    have h5 : bits - p + (i - (bits - p)) = i := by omega
    simp [h1, h4, h5, hbit]

/-! ## Bounds of the parsing layer -/

/-- A parsed octet is at most 255. -/
theorem parseOctet_le {l : List Char} {n : Nat} (h : parseOctet l = some n) : n ≤ 255 := by
  unfold parseOctet at h
  split_ifs at h <;> simp_all

/-- A parsed prefix length is at most the family maximum. -/
theorem parsePrefixLen_le {m : Nat} {l : List Char} {p : Nat}
    (h : parsePrefixLen m l = some p) : p ≤ m := by
  unfold parsePrefixLen at h
  split_ifs at h <;> simp_all

/-- A parsed IPv4 address fits in 32 bits. -/
theorem parseIPv4_lt {l : List Char} {a : Nat} (h : parseIPv4 l = some a) : a < 2 ^ 32 := by
  unfold parseIPv4 at h
  split at h
  next =>
    rcases Option.bind_eq_some.mp h with ⟨x1, h1, h⟩
    rcases Option.bind_eq_some.mp h with ⟨x2, h2, h⟩
    rcases Option.bind_eq_some.mp h with ⟨x3, h3, h⟩
    rcases Option.map_eq_some'.mp h with ⟨x4, h4, rfl⟩
    have b1 := parseOctet_le h1
    have b2 := parseOctet_le h2
    have b3 := parseOctet_le h3
    have b4 := parseOctet_le h4
    have hpow : (2 : Nat) ^ 32 = 4294967296 := by norm_num
    omega
  next => exact absurd h (by simp)

/-- Every network produced by ip_network is an IPv4 network built from a
32-bit address and a prefix length of at most 32. -/
theorem ip_network_shape {l : List Char} {nw : PyNetwork} (h : ip_network l = some nw) :
    ∃ a p, a < 2 ^ 32 ∧ p ≤ 32 ∧ nw = mkNetwork 32 a p := by
  unfold ip_network at h
  split at h
  next =>
    rcases Option.map_eq_some'.mp h with ⟨a, ha, rfl⟩
    exact ⟨a, 32, parseIPv4_lt ha, Nat.le_refl _, rfl⟩
  next =>
    rcases Option.bind_eq_some.mp h with ⟨a, ha, h⟩
    rcases Option.map_eq_some'.mp h with ⟨p, hp, rfl⟩
    exact ⟨a, p, parseIPv4_lt ha, parsePrefixLen_le hp, rfl⟩
  next => exact absurd h (by simp)

/-! ## Claim theorems -/

/-- C3: for every CIDR text the parser accepts, the computed range record
satisfies totalAddresses = endAddress - startAddress + 1 and
totalAddresses = 2 ^ (address_bits - prefixLength); in particular for a
maximum-length prefix, startAddress = endAddress and totalAddresses = 1. -/
theorem claim_C3 (s : String) (nw : PyNetwork)
    (h : ip_network (trimChars s.data) = some nw) :
    ∃ r : IpRange, cidr_to_ip_range s = some r ∧
      r.total_ips = r.end_ip - r.start_ip + 1 ∧
      r.total_ips = 2 ^ (nw.bits - nw.prefixLen) ∧
      (nw.prefixLen = nw.bits → r.start_ip = r.end_ip ∧ r.total_ips = 1) := by
  obtain ⟨a, p, ha, hp, rfl⟩ := ip_network_shape h
  refine ⟨⟨trimChars s.data, (mkNetwork 32 a p).networkInt, (mkNetwork 32 a p).broadcastInt,
    (mkNetwork 32 a p).numAddresses⟩, ?_, rfl, numAddresses_mkNetwork a hp, ?_⟩
  · unfold cidr_to_ip_range validate_cidr
    rw [h]
    simp
  · intro hmax
    have hp32 : p = 32 := hmax
    subst hp32
    have hb := broadcastInt_mkNetwork a hp
    have hn := numAddresses_mkNetwork a hp
    simp only [Nat.sub_self, pow_zero] at hb hn
    exact ⟨by simp [hb], hn⟩

/-- Witness for C3 at the concrete text "192.168.1.0/24". -/
theorem claim_C3_witness :
    ∃ r : IpRange, cidr_to_ip_range "192.168.1.0/24" = some r ∧
      r.total_ips = r.end_ip - r.start_ip + 1 ∧
      r.total_ips = 2 ^ ((mkNetwork 32 3232235776 24).bits - (mkNetwork 32 3232235776 24).prefixLen) ∧
      ((mkNetwork 32 3232235776 24).prefixLen = (mkNetwork 32 3232235776 24).bits →
        r.start_ip = r.end_ip ∧ r.total_ips = 1) :=
  claim_C3 "192.168.1.0/24" (mkNetwork 32 3232235776 24) (by decide)

/-- C5: malformed lines, including "invalid" and the empty string, make
the parser return None rather than an escaping exception (validate_cidr
catches every parse failure and yields False), and process_zone_file
skips such a line and continues with the remaining lines of the file. -/
theorem claim_C5 :
    cidr_to_ip_range "invalid" = none ∧ cidr_to_ip_range "" = none ∧
    validate_cidr "invalid" = false ∧ validate_cidr "" = false ∧
    ∀ (line : String) (rest : List String),
      cidr_to_ip_range (String.mk (trimChars line.data)) = none →
      process_zone_file (line :: rest) = process_zone_file rest := by
  refine ⟨by decide, by decide, by decide, by decide, ?_⟩
  intro line rest h
  simp [process_zone_file, List.filterMap_cons, h]

/-- Witness for C5: an invalid line in the middle of a file is skipped
and the rest of the file is still processed. -/
theorem claim_C5_witness :
    process_zone_file ["invalid", "10.0.0.0/8"] = process_zone_file ["10.0.0.0/8"] :=
  claim_C5.2.2.2.2 "invalid" ["10.0.0.0/8"] (by decide)

/-- C6: a CIDR text whose address part has nonzero host bits is accepted
(strict=False), and the resulting range's startAddress is the canonical
base address: the host bits are silently cleared, so the start address
differs from the parsed address. -/
theorem claim_C6 (s : String) (addrPart prePart : List Char) (a p : Nat)
    (hsplit : splitOnChar '/' (trimChars s.data) = [addrPart, prePart])
    (haddr : parseIPv4 addrPart = some a)
    (hpre : parsePrefixLen 32 prePart = some p)
    (hhost : a % 2 ^ (32 - p) ≠ 0) :
    validate_cidr s = true ∧
    ∃ r : IpRange, cidr_to_ip_range s = some r ∧
      r.start_ip = a - a % 2 ^ (32 - p) ∧ r.start_ip ≠ a := by
  have hnw : ip_network (trimChars s.data) = some (mkNetwork 32 a p) := by
    unfold ip_network
    rw [hsplit]
    simp [haddr, hpre]
  have hcr : cidr_to_ip_range s =
      some ⟨trimChars s.data, (mkNetwork 32 a p).networkInt,
            (mkNetwork 32 a p).broadcastInt, (mkNetwork 32 a p).numAddresses⟩ := by
    unfold cidr_to_ip_range validate_cidr
    rw [hnw]
    simp
  have hclear := networkInt_eq_clear a (parsePrefixLen_le hpre) (parseIPv4_lt haddr)
  refine ⟨by unfold validate_cidr; rw [hnw]; rfl, _, hcr, hclear, ?_⟩
  have hmle : a % 2 ^ (32 - p) ≤ a := Nat.mod_le _ _
  show (mkNetwork 32 a p).networkInt ≠ a
  rw [hclear]
  omega

/-- Witness for C6 at "192.168.1.1/24": accepted, start address is
192.168.1.0 (host bits cleared), not the given 192.168.1.1. -/
theorem claim_C6_witness :
    validate_cidr "192.168.1.1/24" = true ∧
    ∃ r : IpRange, cidr_to_ip_range "192.168.1.1/24" = some r ∧
      r.start_ip = 3232235777 - 3232235777 % 2 ^ (32 - 24) ∧ r.start_ip ≠ 3232235777 :=
  claim_C6 "192.168.1.1/24" "192.168.1.1".data "24".data 3232235777 24
    (by decide) (by decide) (by decide) (by decide)

/-- C9: the constructor stores max(0.0, min(1.0, sample_rate)), so every
sampling operation of the run observes a rate in [0, 1], and the stored
worker count is max(1, max_workers). -/
theorem claim_C9 (sample_rate : ℚ) (max_workers : Int) :
    (CIDRConverter_init sample_rate max_workers).sample_rate = max 0 (min 1 sample_rate) ∧
    0 ≤ (CIDRConverter_init sample_rate max_workers).sample_rate ∧
    (CIDRConverter_init sample_rate max_workers).sample_rate ≤ 1 ∧
    (CIDRConverter_init sample_rate max_workers).max_workers = max 1 max_workers ∧
    1 ≤ (CIDRConverter_init sample_rate max_workers).max_workers :=
  ⟨rfl, le_max_left _ _, max_le (by norm_num) (min_le_left _ _), rfl, le_max_left _ _⟩

/-- C4: for every range, the TXT path with rate at least 1 emits every
address of the range exactly once in ascending order (the dense branch),
and with rate at most 0 emits the empty sequence. -/
theorem claim_C4 (rate : ℚ) (nw : PyNetwork) (sample : List Nat) :
    (1 ≤ rate →
      txtRangeLines rate nw sample = (List.range nw.numAddresses).map (nw.networkInt + ·) ∧
      (txtRangeLines rate nw sample).Sorted (· < ·) ∧
      (txtRangeLines rate nw sample).length = nw.numAddresses ∧
      ∀ x, x ∈ txtRangeLines rate nw sample ↔
        nw.networkInt ≤ x ∧ x < nw.networkInt + nw.numAddresses) ∧
    (rate ≤ 0 → txtRangeLines rate nw sample = []) := by
  constructor
  · intro h1
    have he : txtRangeLines rate nw sample =
        (List.range nw.numAddresses).map (nw.networkInt + ·) := by
      unfold txtRangeLines
      rw [if_pos h1]
    refine ⟨he, ?_, ?_, ?_⟩
    · rw [he]
      exact (List.sorted_lt_range nw.numAddresses).map _ fun a b hab => by omega
    · rw [he]
      simp
    · intro x
      rw [he]
      simp only [List.mem_map, List.mem_range]
      constructor
      · rintro ⟨i, hi, rfl⟩
        omega
      · intro hx
        exact ⟨x - nw.networkInt, by omega, by omega⟩
  · intro h0
    have hn1 : ¬ (1 ≤ rate) := fun hc => absurd (le_trans hc h0) (by norm_num)
    have hn0 : ¬ (0 < rate) := not_lt.mpr h0
    unfold txtRangeLines
    rw [if_neg hn1, if_neg hn0]

/-- Witness for C4 on the four-address block 0.0.0.0/30 with rate 1 and
rate 0. -/
theorem claim_C4_witness :
    txtRangeLines 1 (mkNetwork 32 0 30) [] =
      (List.range (mkNetwork 32 0 30).numAddresses).map ((mkNetwork 32 0 30).networkInt + ·) ∧
    txtRangeLines 0 (mkNetwork 32 0 30) [] = [] :=
  ⟨((claim_C4 1 (mkNetwork 32 0 30) []).1 (by decide)).1,
   (claim_C4 0 (mkNetwork 32 0 30) []).2 (by decide)⟩

/-- The broadcast address is at least the network address (the OR with
the hostmask can only set bits). -/
theorem networkInt_le_broadcastInt (nw : PyNetwork) : nw.networkInt ≤ nw.broadcastInt :=
  Nat.le_of_testBit fun i hi => by
    simp [PyNetwork.broadcastInt, Nat.testBit_or, hi]

/-- C2 counterexample: the claim quantifies over every NetworkRange, but
on an IPv6 range whose base address does not fit in 32 bits (here the
/126 block based at 2^32, four addresses) with rate 1/2 the sampling
branch applies: k = 2 < 4 and the draw [0, 1] is two distinct offsets
below 4, yet the emission has zero addresses instead of k = 2, because
the IPv4-only address constructor raises on every sampled value. -/
theorem claim_C2_counterexample :
    (0 : ℚ) < mkRat 1 2 ∧ mkRat 1 2 < 1 ∧
    sampleSize (mkRat 1 2) (mkNetwork 128 (2 ^ 32) 126).numAddresses = 2 ∧
    (2 : Nat) < (mkNetwork 128 (2 ^ 32) 126).numAddresses ∧
    ([0, 1] : List Nat).Nodup ∧
    (∀ o ∈ ([0, 1] : List Nat), o < (mkNetwork 128 (2 ^ 32) 126).numAddresses) ∧
    ([0, 1] : List Nat).length = 2 ∧
    (txtRangeLines (mkRat 1 2) (mkNetwork 128 (2 ^ 32) 126) [0, 1]).length = 0 := by
  decide

/-- C2 (amended): for every NetworkRange all of whose addresses fit in
32 bits (IPv4 ranges) and every rate with 0 < rate < 1 such that
k = max(1, int(totalAddresses * rate)) < totalAddresses, the TXT
emission produces, for every possible random draw of k distinct offsets
below totalAddresses, exactly k distinct addresses in strictly ascending
order, each within [startAddress, endAddress].  The draw is a parameter,
so any two runs satisfy the same cardinality and ordering properties. -/
theorem claim_C2_amended (rate : ℚ) (nw : PyNetwork) (sample : List Nat)
    (h0 : 0 < rate) (h1 : rate < 1)
    (hk : sampleSize rate nw.numAddresses < nw.numAddresses)
    (hlen : sample.length = sampleSize rate nw.numAddresses)
    (hnd : sample.Nodup)
    (hmem : ∀ o ∈ sample, o < nw.numAddresses)
    (hfit : nw.networkInt + nw.numAddresses ≤ 2 ^ 32) :
    (txtRangeLines rate nw sample).length = sampleSize rate nw.numAddresses ∧
    (txtRangeLines rate nw sample).Sorted (· < ·) ∧
    ∀ x ∈ txtRangeLines rate nw sample,
      nw.networkInt ≤ x ∧ x ≤ nw.broadcastInt := by
  have he : txtRangeLines rate nw sample =
      ((List.insertionSort (· ≤ ·) sample).map (nw.networkInt + ·)).takeWhile
        (· < 2 ^ 32) := by
    unfold txtRangeLines
    rw [if_neg (not_le.mpr h1), if_pos h0, if_neg (not_le.mpr hk)]
  have hperm := List.perm_insertionSort (· ≤ ·) sample
  have hmem2 : ∀ o ∈ List.insertionSort (· ≤ ·) sample, o < nw.numAddresses :=
    fun o ho => hmem o (hperm.mem_iff.mp ho)
  have htake : txtRangeLines rate nw sample =
      (List.insertionSort (· ≤ ·) sample).map (nw.networkInt + ·) := by
    rw [he]
    apply List.takeWhile_eq_self_iff.mpr
    intro x hx
    rcases List.mem_map.mp hx with ⟨o, ho, rfl⟩
    have := hmem2 o ho
    simp only [decide_eq_true_eq]
    omega
  have hnd2 : (List.insertionSort (· ≤ ·) sample).Nodup := hperm.symm.nodup hnd
  have hlt : (List.insertionSort (· ≤ ·) sample).Sorted (· < ·) :=
    (List.sorted_insertionSort (· ≤ ·) sample).lt_of_le hnd2
  have hnum : nw.numAddresses = nw.broadcastInt - nw.networkInt + 1 := rfl
  have hble := networkInt_le_broadcastInt nw
  refine ⟨?_, ?_, ?_⟩
  · rw [htake, List.length_map, hperm.length_eq, hlen]
  · rw [htake]
    exact hlt.map _ fun a b hab => by omega
  · intro x hx
    rw [htake] at hx
    rcases List.mem_map.mp hx with ⟨o, ho, rfl⟩
    have := hmem2 o ho
    omega

/-- Witness for the amended C2 on the IPv4 block 0.0.0.0/30 with rate
1/2 and the draw [2, 0] (k = 2): two addresses, ascending, in range. -/
theorem claim_C2_amended_witness :
    (txtRangeLines (mkRat 1 2) (mkNetwork 32 0 30) [2, 0]).length =
      sampleSize (mkRat 1 2) (mkNetwork 32 0 30).numAddresses ∧
    (txtRangeLines (mkRat 1 2) (mkNetwork 32 0 30) [2, 0]).Sorted (· < ·) ∧
    ∀ x ∈ txtRangeLines (mkRat 1 2) (mkNetwork 32 0 30) [2, 0],
      (mkNetwork 32 0 30).networkInt ≤ x ∧ x ≤ (mkNetwork 32 0 30).broadcastInt :=
  claim_C2_amended (mkRat 1 2) (mkNetwork 32 0 30) [2, 0]
    (by decide) (by decide) (by decide) (by decide) (by decide) (by decide) (by decide)

/-- C10: in the sampling branch every chosen offset is converted with the
IPv4-only constructor; for a range whose base address plus sampled
offsets do not fit in 32 bits (an IPv6 range) the resulting ValueError is
caught by the per-range handler, so the range contributes no lines to the
TXT output while the remaining ranges of the file are emitted
unchanged. -/
theorem claim_C10 (rate : ℚ) (nw : PyNetwork) (sample : List Nat)
    (pre post : List (PyNetwork × List Nat))
    (h0 : 0 < rate) (h1 : rate < 1)
    (hk : sampleSize rate nw.numAddresses < nw.numAddresses)
    (hbig : ∀ o ∈ sample, 2 ^ 32 ≤ nw.networkInt + o) :
    txtRangeLines rate nw sample = [] ∧
    save_ranges_txt rate (pre ++ (nw, sample) :: post) =
      save_ranges_txt rate pre ++ save_ranges_txt rate post := by
  have he : txtRangeLines rate nw sample =
      ((List.insertionSort (· ≤ ·) sample).map (nw.networkInt + ·)).takeWhile
        (· < 2 ^ 32) := by
    unfold txtRangeLines
    rw [if_neg (not_le.mpr h1), if_pos h0, if_neg (not_le.mpr hk)]
  have hnil : txtRangeLines rate nw sample = [] := by
    rw [he]
    cases hs : List.insertionSort (· ≤ ·) sample with
    | nil => rfl
    | cons o rest =>
      have ho : o ∈ sample := by
        have hm : o ∈ List.insertionSort (· ≤ ·) sample := by
          rw [hs]
          exact List.mem_cons_self _ _
        exact (List.perm_insertionSort (· ≤ ·) sample).mem_iff.mp hm
      have hb := hbig o ho
      have h32 : (2 : Nat) ^ 32 = 4294967296 := by norm_num
      rw [h32] at hb
      have hnot : ¬ (nw.networkInt + o < 4294967296) := by omega
      simp only [List.map_cons, List.takeWhile_cons]
      simp [hnot]
  refine ⟨hnil, ?_⟩
  simp [save_ranges_txt, List.map_append, List.flatten_append, hnil]

/-- Witness for C10: the IPv6 /126 block based at 2^32 with draw [0, 1]
is dropped, its IPv4 neighbours before and after are emitted. -/
theorem claim_C10_witness :
    txtRangeLines (mkRat 1 2) (mkNetwork 128 (2 ^ 32) 126) [0, 1] = [] ∧
    save_ranges_txt (mkRat 1 2)
        ([(mkNetwork 32 0 30, [1])] ++
          (mkNetwork 128 (2 ^ 32) 126, [0, 1]) :: [(mkNetwork 32 8 30, [0])]) =
      save_ranges_txt (mkRat 1 2) [(mkNetwork 32 0 30, [1])] ++
        save_ranges_txt (mkRat 1 2) [(mkNetwork 32 8 30, [0])] :=
  claim_C10 (mkRat 1 2) (mkNetwork 128 (2 ^ 32) 126) [0, 1]
    [(mkNetwork 32 0 30, [1])] [(mkNetwork 32 8 30, [0])]
    (by decide) (by decide) (by decide) (by decide)

/-- Closed form of the aggregation loop of convert_all over any initial
accumulator: counts of successful and failed files and the two running
sums. -/
theorem foldl_aggStep (l : List FsFile) (st : RunStats) :
    l.foldl aggStep st =
      ⟨st.total_files,
       st.processed_files + l.countP (fun f => (convert_file f).isSome),
       st.failed_files + l.countP (fun f => (convert_file f).isNone),
       st.total_ranges + (l.map fun f => ((convert_file f).map FileStats.ranges).getD 0).sum,
       st.total_ips + (l.map fun f => ((convert_file f).map FileStats.ips).getD 0).sum,
       st.configError⟩ := by
  induction l generalizing st with
  | nil => simp
  | cons f tl ih =>
    rw [List.foldl_cons, ih]
    cases hcf : convert_file f with
    | some stats =>
      simp [aggStep, hcf, List.countP_cons, RunStats.mk.injEq]
      try omega
    | none =>
      simp [aggStep, hcf, List.countP_cons, RunStats.mk.injEq]
      try omega

/-- C1 counterexample: a source file yielding zero valid ranges produces
the None ("Skipped") outcome, but the pipeline aggregation records it in
failed_files (1, not 0): it does contribute to filesFailed,
contradicting the claim that it contributes to neither count. -/
theorem claim_C1_counterexample :
    convert_file ⟨"empty.zone", ["# comment only"]⟩ = none ∧
    (convert_all (InputPath.dir [⟨"empty.zone", ["# comment only"]⟩])).processed_files = 0 ∧
    ¬ ((convert_all (InputPath.dir [⟨"empty.zone", ["# comment only"]⟩])).failed_files = 0) := by
  decide

/-- C1 (amended): a file with zero valid ranges yields the None/Skipped
outcome, is not counted in filesProcessed and leaves the range and
address sums unchanged, but the aggregator does count it in filesFailed,
adding exactly one for such a file. -/
theorem claim_C1_amended (pre post : List FsFile) (f : FsFile)
    (h : process_zone_file f.lines = []) :
    convert_file f = none ∧
    (aggregateStats (pre ++ f :: post)).processed_files =
      (aggregateStats (pre ++ post)).processed_files ∧
    (aggregateStats (pre ++ f :: post)).failed_files =
      (aggregateStats (pre ++ post)).failed_files + 1 ∧
    (aggregateStats (pre ++ f :: post)).total_ranges =
      (aggregateStats (pre ++ post)).total_ranges ∧
    (aggregateStats (pre ++ f :: post)).total_ips =
      (aggregateStats (pre ++ post)).total_ips := by
  have hcf : convert_file f = none := by
    unfold convert_file
    rw [h]
    rfl
  refine ⟨hcf, ?_, ?_, ?_, ?_⟩
  all_goals
    simp [aggregateStats, foldl_aggStep, aggStep, hcf, List.countP_append,
      List.countP_cons, List.map_append, List.sum_append]
  all_goals try omega

/-- Witness for the amended C1: one good file plus one empty file give
the same processed count and sums as the good file alone, and one more
failed file. -/
theorem claim_C1_amended_witness :
    convert_file ⟨"empty.zone", ["# c"]⟩ = none ∧
    (aggregateStats ([⟨"a.zone", ["10.0.0.0/8"]⟩] ++ ⟨"empty.zone", ["# c"]⟩ :: [])).processed_files =
      (aggregateStats ([⟨"a.zone", ["10.0.0.0/8"]⟩] ++ [])).processed_files ∧
    (aggregateStats ([⟨"a.zone", ["10.0.0.0/8"]⟩] ++ ⟨"empty.zone", ["# c"]⟩ :: [])).failed_files =
      (aggregateStats ([⟨"a.zone", ["10.0.0.0/8"]⟩] ++ [])).failed_files + 1 ∧
    (aggregateStats ([⟨"a.zone", ["10.0.0.0/8"]⟩] ++ ⟨"empty.zone", ["# c"]⟩ :: [])).total_ranges =
      (aggregateStats ([⟨"a.zone", ["10.0.0.0/8"]⟩] ++ [])).total_ranges ∧
    (aggregateStats ([⟨"a.zone", ["10.0.0.0/8"]⟩] ++ ⟨"empty.zone", ["# c"]⟩ :: [])).total_ips =
      (aggregateStats ([⟨"a.zone", ["10.0.0.0/8"]⟩] ++ [])).total_ips :=
  claim_C1_amended [⟨"a.zone", ["10.0.0.0/8"]⟩] [] ⟨"empty.zone", ["# c"]⟩ (by decide)

/-- C7 counterexample: an explicit output filename together with two
requested formats and a single-file input is not rejected by the only
pre-run validation (the CLI check fires only for a directory input), and
each save falls back to its per-format default name at emission time:
the ambiguity is resolved mid-run, not validated before processing. -/
theorem claim_C7_counterexample :
    cliRejectsOutputFile (some "out.txt") (some "single.zone") false = false ∧
    chooseOutputFile (some "out.txt") ["json", "csv"] "single" "json" = "single_ranges.json" ∧
    chooseOutputFile (some "out.txt") ["json", "csv"] "single" "csv" = "single_ranges.csv" ∧
    chooseOutputFile (some "out.txt") ["json", "csv"] "single" "json" ≠ "out.txt" := by
  decide

/-- C7 (amended): the explicit filename is used as the output path
exactly when one output format was requested (for a name that differs
from the per-format default); with several formats every save silently
falls back to its per-format default name when it runs; the only
validation performed before processing is the CLI rejection of an
explicit filename combined with a directory input. -/
theorem claim_C7_amended (n i base ext : String) (formats : List String)
    (hn : n ≠ "") (hi : i ≠ "") (hdefault : n ≠ base ++ "_ranges." ++ ext) :
    (chooseOutputFile (some n) formats base ext = n ↔ formats.length = 1) ∧
    cliRejectsOutputFile (some n) (some i) true = true ∧
    cliRejectsOutputFile (some n) (some i) false = false := by
  refine ⟨?_, ?_, ?_⟩
  · unfold chooseOutputFile
    by_cases hlen : formats.length = 1
    · simp [hn, hlen]
    · simp [hlen, Ne.symm hdefault]
  · simp [cliRejectsOutputFile, pyTruthy, bne_iff_ne, hn, hi]
  · simp [cliRejectsOutputFile]

/-- Witness for the amended C7 with one requested format. -/
theorem claim_C7_amended_witness :
    (chooseOutputFile (some "out.json") ["json"] "us" "json" = "out.json" ↔
      (["json"] : List String).length = 1) ∧
    cliRejectsOutputFile (some "out.json") (some "zones") true = true ∧
    cliRejectsOutputFile (some "out.json") (some "zones") false = false :=
  claim_C7_amended "out.json" "zones" "us" "json" ["json"] (by decide) (by decide) (by decide)

/-- C8: input discovery — an existing file gives exactly that one file;
a directory gives exactly its direct entries carrying the .zone suffix
(non-recursive: only the direct entries are considered); a missing input
yields the zero statistics with the configuration-error signal set. -/
theorem claim_C8 :
    (∀ f : FsFile, discoverFiles (.file f) = some [f]) ∧
    (∀ entries : List FsFile, discoverFiles (.dir entries) = some (globZone entries) ∧
      ∀ f : FsFile, f ∈ globZone entries ↔ f ∈ entries ∧ ".zone".data.isSuffixOf f.name.data) ∧
    convert_all .missing = zeroStats true ∧
    (convert_all .missing).total_files = 0 ∧
    (convert_all .missing).processed_files = 0 ∧
    (convert_all .missing).configError = true := by
  refine ⟨fun f => rfl, fun entries => ⟨rfl, fun f => ?_⟩, rfl, rfl, rfl, rfl⟩
  simp [globZone, List.mem_filter]

end IPRanges
